import Mathlib

/-!
Verification of the `bring` single-producer/single-consumer ring buffer
(`include/bring/ring_buffer.hpp`).

The C++ class `RingBuffer<T, Capacity>` keeps two cursors `_head` and
`_tail` and a heap array `_storage` of `Capacity` raw slots.  We embed a
buffer state as a Lean structure: the cursors are natural numbers, the
slot array is a list of `Option T` (`some v` = a slot holding a live
element `v`, `none` = raw/destroyed storage), and the moved-from null
`unique_ptr` is the empty list.  Every cursor update in the source is
masked with `Capacity - 1`, which we keep as a bitwise `&&&` exactly as
written.  All operations are pure state transformers returning the C++
return value together with the successor state.
-/

namespace Bring

/-- State of a `bring::RingBuffer<T, Capacity>` object: the template
capacity, the two cursors, and the slot array (`some v` = constructed
element, `none` = raw storage; `[]` = moved-from null storage). -/
structure RingBuffer (T : Type) where
  capacity : Nat
  head : Nat
  tail : Nat
  storage : List (Option T)
deriving DecidableEq

variable {T : Type}

/-- The default constructor `RingBuffer()` : `head = tail = 0`, a fresh
array of `Capacity` uninitialized slots. -/
def RingBuffer.new (T : Type) (C : Nat) : RingBuffer T :=
  { capacity := C, head := 0, tail := 0, storage := List.replicate C none }

/-- Source `is_full()` : load `head`, compute `next_head = (head + 1) & (Capacity - 1)`,
compare with `tail`. -/
def is_full (b : RingBuffer T) : Bool :=
  let current_head := b.head
  let next_head := (current_head + 1) &&& (b.capacity - 1)
  next_head == b.tail

/-- Source `is_empty()` : load `tail`, compare with `head`. -/
def is_empty (b : RingBuffer T) : Bool :=
  let current_tail := b.tail
  current_tail == b.head

/-- Source `try_push(item)` : if `next_head` hits `tail` the buffer is full and
nothing happens; otherwise the value is constructed into slot `head` and
`head` is advanced to `next_head`. -/
def try_push (b : RingBuffer T) (item : T) : Bool × RingBuffer T :=
  let current_head := b.head
  let next_head := (current_head + 1) &&& (b.capacity - 1)
  if next_head = b.tail then
    (false, b)
  else
    (true, { b with storage := b.storage.set current_head (some item),
                    head := next_head })

/-- Source `emplace(args...)` : constructs `T` in place from `args`; we embed the
already-constructed element.  Identical full/empty logic to `try_push`. -/
def emplace (b : RingBuffer T) (item : T) : Bool × RingBuffer T :=
  let current_head := b.head
  let next_head := (current_head + 1) &&& (b.capacity - 1)
  if next_head = b.tail then
    (false, b)
  else
    (true, { b with storage := b.storage.set current_head (some item),
                    head := next_head })

/-- Source `try_pop_ip(out&)` : if `tail` equals `head` the buffer is empty and
nothing happens; otherwise the element at slot `tail` is moved into `out`
(the middle component records what was written there), the slot is
destroyed, and `tail` advances.  The boolean is the C++ return value. -/
def try_pop_ip (b : RingBuffer T) : Bool × Option T × RingBuffer T :=
  let current_tail := b.tail
  if current_tail = b.head then
    (false, none, b)
  else
    let element := b.storage.getD current_tail none
    (true, element,
      { b with storage := b.storage.set current_tail none,
               tail := (current_tail + 1) &&& (b.capacity - 1) })

/-- Source `try_pop()` : same consumer logic, returning `std::optional<T>`
(`none` = `std::nullopt` on the empty path). -/
def try_pop (b : RingBuffer T) : Option T × RingBuffer T :=
  let current_tail := b.tail
  if current_tail = b.head then
    (none, b)
  else
    let element := b.storage.getD current_tail none
    (element,
      { b with storage := b.storage.set current_tail none,
               tail := (current_tail + 1) &&& (b.capacity - 1) })

/-- Source `try_consume(fn)` : same consumer logic, handing the moved-out element
to the callback (the middle component records the value passed to it). -/
def try_consume (b : RingBuffer T) : Bool × Option T × RingBuffer T :=
  let current_tail := b.tail
  if current_tail = b.head then
    (false, none, b)
  else
    let element := b.storage.getD current_tail none
    (true, element,
      { b with storage := b.storage.set current_tail none,
               tail := (current_tail + 1) &&& (b.capacity - 1) })

/-- Fueled version of the destructor loop `while (try_consume(...)) {}`;
returns the number of successful `try_consume` calls (= the number of
element-destructor invocations) together with the drained state. -/
def drain : Nat → RingBuffer T → Nat × RingBuffer T
  | 0, b => (0, b)
  | fuel + 1, b =>
    let r := try_consume b
    if r.1 then
      let s := drain fuel r.2.2
      (s.1 + 1, s.2)
    else
      (0, b)

/-- Destructor `~RingBuffer()` : drains the buffer with `try_consume`; the result is
the number of element destructors invoked.  `capacity` steps of fuel are
enough for every state reachable through the API. -/
def destruct (b : RingBuffer T) : Nat :=
  (drain b.capacity b).1

/-- The move constructor `RingBuffer(RingBuffer&& other)` : the new object
copies both cursors and steals the storage pointer; `other`'s cursors are
reset to `0` and its `unique_ptr` is left null (empty list).  Result:
(constructed buffer, moved-from source). -/
def moveConstruct (other : RingBuffer T) : RingBuffer T × RingBuffer T :=
  ({ capacity := other.capacity, head := other.head, tail := other.tail,
     storage := other.storage },
   { capacity := other.capacity, head := 0, tail := 0, storage := [] })

/-- Move assignment `operator=(RingBuffer&& other)` (non-self case): first
`while (try_pop()) {}` destroys the existing elements, then both cursors
and the storage pointer are taken from `other`, whose cursors are reset
and whose storage is left null.  Result: (assigned-to buffer, moved-from
source). -/
def moveAssign (self other : RingBuffer T) : RingBuffer T × RingBuffer T :=
  let cleaned := (drain self.capacity self).2
  ({ cleaned with head := other.head, tail := other.tail,
                  storage := other.storage },
   { other with head := 0, tail := 0, storage := [] })

/-- Result of the combined state query. -/
structure BufferState where
  empty : Bool
  full : Bool
deriving DecidableEq

/-- Modelled from the spec: the header under `src/include` does not define
`get_state`, but the test suite calls `buffer.get_state()` and the spec
requires "a combined state query returning both `empty` and `full` flags
computed from a single pair of loads".  We model it as reading the two
cursors once and deriving both flags from that one snapshot, with the
same full/empty formulas as `is_full`/`is_empty`. -/
def get_state (b : RingBuffer T) : BufferState :=
  let current_head := b.head
  let current_tail := b.tail
  { empty := current_tail == current_head,
    full := ((current_head + 1) &&& (b.capacity - 1)) == current_tail }

/-- Position of slot index `i` relative to the read cursor `t`, measured
forward around the ring of `C` slots.  The occupied region `[tail, head)`
of the source is exactly the indices whose relative position is below the
occupancy count. -/
def relPos (C t i : Nat) : Nat := (i + C - t % C) % C

/-- Number of live elements: the relative position of `head` seen from
`tail`. -/
def size (b : RingBuffer T) : Nat := relPos b.capacity b.tail b.head

/-- The live elements in queue order: slot contents from `tail` (oldest)
up to `head` (exclusive), following the ring. -/
def slots (b : RingBuffer T) : List (Option T) :=
  (List.range (size b)).map (fun k => b.storage.getD ((b.tail + k) % b.capacity) none)

/-- Structural well-formedness of a buffer state: the capacity is a power
of two greater than 1 (the two `static_assert`s of the class), both
cursors are masked into range, and the storage has `Capacity` slots. -/
structure Inv (b : RingBuffer T) : Prop where
  pow : ∃ m, 1 ≤ m ∧ b.capacity = 2 ^ m
  hlt : b.head < b.capacity
  tlt : b.tail < b.capacity
  len : b.storage.length = b.capacity

/-- One client call against the buffer: the two producer operations and
the three consumer operations of the public API. -/
inductive Op (T : Type) where
  | push (v : T)
  | emplace (v : T)
  | pop
  | pop_ip
  | consume
deriving DecidableEq

/-- A buffer together with the history of successfully pushed and
successfully popped values (ghost state for the FIFO argument). -/
structure Trace (T : Type) where
  buf : RingBuffer T
  pushed : List T
  popped : List T
deriving DecidableEq

/-- Execute one API call, recording a successfully pushed value at the end
of `pushed` and a successfully delivered value at the end of `popped`. -/
def stepOp (tr : Trace T) : Op T → Trace T
  | Op.push v =>
    let r := try_push tr.buf v
    { buf := r.2, pushed := tr.pushed ++ if r.1 then [v] else [],
      popped := tr.popped }
  | Op.emplace v =>
    let r := emplace tr.buf v
    { buf := r.2, pushed := tr.pushed ++ if r.1 then [v] else [],
      popped := tr.popped }
  | Op.pop =>
    let r := try_pop tr.buf
    { buf := r.2, pushed := tr.pushed, popped := tr.popped ++ r.1.toList }
  | Op.pop_ip =>
    let r := try_pop_ip tr.buf
    { buf := r.2.2, pushed := tr.pushed, popped := tr.popped ++ r.2.1.toList }
  | Op.consume =>
    let r := try_consume tr.buf
    { buf := r.2.2, pushed := tr.pushed, popped := tr.popped ++ r.2.1.toList }

/-- Execute a whole sequence of API calls. -/
def runOps (tr : Trace T) : List (Op T) → Trace T
  | [] => tr
  | op :: ops => runOps (stepOp tr op) ops

/-- A freshly constructed buffer with empty histories. -/
def freshTrace (T : Type) (C : Nat) : Trace T :=
  { buf := RingBuffer.new T C, pushed := [], popped := [] }

/-- The run invariant: the buffer state is well formed and the pushed
history splits into the popped history followed by the resident queue. -/
def traceInv (tr : Trace T) : Prop :=
  Inv tr.buf ∧ tr.pushed.map some = tr.popped.map some ++ slots tr.buf

/-- Push a list of values one after the other, collecting every `try_push`
return value in order. -/
def pushAll (b : RingBuffer T) : List T → List Bool × RingBuffer T
  | [] => ([], b)
  | v :: rest =>
    let r := try_push b v
    let s := pushAll r.2 rest
    (r.1 :: s.1, s.2)

theorem Inv.cap_pos {b : RingBuffer T} (h : Inv b) : 0 < b.capacity := by
  obtain ⟨m, _, hc⟩ := h.pow
  rw [hc]
  exact Nat.pos_pow_of_pos m (by decide)

theorem Inv.cap_two {b : RingBuffer T} (h : Inv b) : 2 ≤ b.capacity := by
  obtain ⟨m, hm, hc⟩ := h.pow
  rw [hc]
  calc 2 = 2 ^ 1 := rfl
    _ ≤ 2 ^ m := Nat.pow_le_pow_right (by decide) hm

/-- Under the power-of-two capacity assumption the mask in the source is
the modulus: `x & (Capacity - 1) = x % Capacity`. -/
theorem Inv.mask {b : RingBuffer T} (h : Inv b) (x : Nat) :
    x &&& (b.capacity - 1) = x % b.capacity := by
  obtain ⟨m, _, hc⟩ := h.pow
  rw [hc]
  exact Nat.and_pow_two_sub_one_eq_mod x m

theorem relPos_add (C t x : Nat) (ht : t < C) (hx : x < C) :
    relPos C t ((t + x) % C) = x := by
  unfold relPos
  rw [Nat.mod_eq_of_lt ht]
  rcases Nat.lt_or_ge (t + x) C with hlt | hge
  · rw [Nat.mod_eq_of_lt hlt]
    have h1 : t + x + C - t = x + C := by omega
    rw [h1, Nat.add_mod_right]
    exact Nat.mod_eq_of_lt hx
  · have h2 : (t + x) % C = t + x - C := by
      rw [Nat.mod_eq_sub_mod hge]
      exact Nat.mod_eq_of_lt (by omega)
    rw [h2]
    have h3 : t + x - C + C - t = x := by omega
    rw [h3]
    exact Nat.mod_eq_of_lt hx

theorem add_relPos (C t h : Nat) (ht : t < C) (hh : h < C) :
    (t + relPos C t h) % C = h := by
  unfold relPos
  rw [Nat.mod_eq_of_lt ht]
  rcases le_or_lt t h with hle | hgt
  · have e1 : (h + C - t) % C = h - t := by
      rw [show h + C - t = (h - t) + C by omega, Nat.add_mod_right]
      exact Nat.mod_eq_of_lt (by omega)
    rw [e1, show t + (h - t) = h by omega]
    exact Nat.mod_eq_of_lt hh
  · have e2 : (h + C - t) % C = h + C - t := Nat.mod_eq_of_lt (by omega)
    rw [e2, show t + (h + C - t) = h + C by omega, Nat.add_mod_right]
    exact Nat.mod_eq_of_lt hh

theorem relPos_lt (C t i : Nat) (hC : 0 < C) : relPos C t i < C :=
  Nat.mod_lt _ hC

theorem relPos_self (C t : Nat) (ht : t < C) : relPos C t t = 0 := by
  unfold relPos
  rw [Nat.mod_eq_of_lt ht]
  have h1 : t + C - t = C := by omega
  rw [h1]
  exact Nat.mod_self C

theorem mod_cursor_inj (C t x y : Nat) (ht : t < C) (hx : x < C) (hy : y < C)
    (h : (t + x) % C = (t + y) % C) : x = y := by
  have h1 := relPos_add C t x ht hx
  have h2 := relPos_add C t y ht hy
  rw [← h1, ← h2, h]

/-- Lemma: `head` sits at relative position `size` from `tail`. -/
theorem head_eq_add_size {b : RingBuffer T} (h : Inv b) :
    (b.tail + size b) % b.capacity = b.head :=
  add_relPos b.capacity b.tail b.head h.tlt h.hlt

theorem size_lt_cap {b : RingBuffer T} (h : Inv b) : size b < b.capacity :=
  relPos_lt _ _ _ h.cap_pos

theorem size_eq_zero_iff {b : RingBuffer T} (h : Inv b) :
    size b = 0 ↔ b.tail = b.head := by
  constructor
  · intro h0
    have := head_eq_add_size h
    rw [h0, Nat.add_zero, Nat.mod_eq_of_lt h.tlt] at this
    exact this
  · intro he
    rw [size, he]
    exact relPos_self _ _ (he ▸ h.tlt)

/-- Full-buffer characterization: `(head + 1) % C = tail` iff the buffer
holds `C - 1` elements. -/
theorem full_iff_size {b : RingBuffer T} (h : Inv b) :
    (b.head + 1) % b.capacity = b.tail ↔ size b = b.capacity - 1 := by
  have hC := h.cap_pos
  have hhd := head_eq_add_size h
  have hsz := size_lt_cap h
  constructor
  · intro hf
    rw [← hhd, Nat.mod_add_mod] at hf
    rcases Nat.lt_or_ge (size b + 1) b.capacity with hlt | hge
    · exfalso
      have h0 : (b.tail + 0) % b.capacity = b.tail := by
        rw [Nat.add_zero]
        exact Nat.mod_eq_of_lt h.tlt
      have := mod_cursor_inj b.capacity b.tail (size b + 1) 0 h.tlt hlt hC
        (by rw [← Nat.add_assoc, hf, h0])
      omega
    · omega
  · intro hs
    rw [← hhd, Nat.mod_add_mod, hs]
    have h1 : b.tail + (b.capacity - 1) + 1 = b.tail + b.capacity := by omega
    rw [h1, Nat.add_mod_right]
    exact Nat.mod_eq_of_lt h.tlt

theorem getD_set_ne (l : List (Option T)) {i j : Nat} (a : Option T) (h : i ≠ j) :
    (l.set i a).getD j none = l.getD j none := by
  show ((l.set i a).get? j).getD none = (l.get? j).getD none
  rw [List.get?_set_ne a l h]

theorem getD_set_self (l : List (Option T)) {i : Nat} (a : Option T) (h : i < l.length) :
    (l.set i a).getD i none = a := by
  show ((l.set i a).get? i).getD none = a
  rw [List.get?_set_eq_of_lt a h]
  rfl

theorem emplace_eq_try_push (b : RingBuffer T) (v : T) : emplace b v = try_push b v := rfl

theorem try_consume_eq_try_pop_ip (b : RingBuffer T) : try_consume b = try_pop_ip b := rfl

theorem try_pop_ip_val (b : RingBuffer T) : (try_pop_ip b).2.1 = (try_pop b).1 := by
  by_cases hc : b.tail = b.head <;> simp [try_pop_ip, try_pop, hc]

theorem try_pop_ip_state (b : RingBuffer T) : (try_pop_ip b).2.2 = (try_pop b).2 := by
  by_cases hc : b.tail = b.head <;> simp [try_pop_ip, try_pop, hc]

theorem try_pop_ip_flag (b : RingBuffer T) :
    (try_pop_ip b).1 = !(b.tail == b.head) := by
  by_cases hc : b.tail = b.head <;> simp [try_pop_ip, hc]

theorem try_push_full {b : RingBuffer T} (h : Inv b) (v : T)
    (hf : size b = b.capacity - 1) : try_push b v = (false, b) := by
  unfold try_push
  dsimp only
  rw [h.mask]
  rw [if_pos ((full_iff_size h).mpr hf)]

theorem try_push_not_full {b : RingBuffer T} (h : Inv b) (v : T)
    (hf : size b ≠ b.capacity - 1) :
    try_push b v = (true,
      { b with storage := b.storage.set b.head (some v),
               head := (b.head + 1) % b.capacity }) := by
  unfold try_push
  dsimp only
  rw [h.mask]
  rw [if_neg (fun hc => hf ((full_iff_size h).mp hc))]

theorem push_Inv {b : RingBuffer T} (h : Inv b) (v : T) : Inv (try_push b v).2 := by
  by_cases hf : size b = b.capacity - 1
  · rw [try_push_full h v hf]
    exact h
  · rw [try_push_not_full h v hf]
    exact { pow := h.pow, hlt := Nat.mod_lt _ h.cap_pos, tlt := h.tlt,
            len := by rw [List.length_set]; exact h.len }

theorem push_size {b : RingBuffer T} (h : Inv b) (v : T)
    (hf : size b ≠ b.capacity - 1) :
    size (try_push b v).2 = size b + 1 := by
  rw [try_push_not_full h v hf]
  show relPos b.capacity b.tail ((b.head + 1) % b.capacity) = size b + 1
  have hstep : (b.head + 1) % b.capacity = (b.tail + (size b + 1)) % b.capacity := by
    conv_lhs => rw [← head_eq_add_size h]
    rw [Nat.mod_add_mod, Nat.add_assoc]
  rw [hstep]
  exact relPos_add _ _ _ h.tlt (by have := size_lt_cap h; omega)

theorem push_slots {b : RingBuffer T} (h : Inv b) (v : T)
    (hf : size b ≠ b.capacity - 1) :
    slots (try_push b v).2 = slots b ++ [some v] := by
  have hsz := push_size h v hf
  rw [try_push_not_full h v hf] at hsz ⊢
  unfold slots
  rw [hsz, List.range_succ, List.map_append, List.map_cons, List.map_nil]
  congr 1
  · apply List.map_eq_map_iff.mpr
    intro k hk
    have hklt : k < size b := List.mem_range.mp hk
    have hne : b.head ≠ (b.tail + k) % b.capacity := by
      intro heq
      have := mod_cursor_inj b.capacity b.tail (size b) k h.tlt (size_lt_cap h)
        (lt_trans hklt (size_lt_cap h))
        (by rw [head_eq_add_size h, ← heq])
      omega
    exact getD_set_ne b.storage (some v) hne
  · rw [show ((b.tail + size b) % b.capacity) = b.head from head_eq_add_size h]
    rw [getD_set_self b.storage (some v) (h.len ▸ h.hlt)]

theorem try_pop_empty {b : RingBuffer T} (he : b.tail = b.head) :
    try_pop b = (none, b) := by
  unfold try_pop
  rw [if_pos he]

theorem try_pop_nonempty {b : RingBuffer T} (h : Inv b) (hne : b.tail ≠ b.head) :
    try_pop b = (b.storage.getD b.tail none,
      { b with storage := b.storage.set b.tail none,
               tail := (b.tail + 1) % b.capacity }) := by
  unfold try_pop
  dsimp only
  rw [h.mask, if_neg hne]

theorem pop_Inv {b : RingBuffer T} (h : Inv b) : Inv (try_pop b).2 := by
  by_cases hc : b.tail = b.head
  · rw [try_pop_empty hc]
    exact h
  · rw [try_pop_nonempty h hc]
    exact { pow := h.pow, hlt := h.hlt, tlt := Nat.mod_lt _ h.cap_pos,
            len := by rw [List.length_set]; exact h.len }

theorem pop_size {b : RingBuffer T} (h : Inv b) (hne : b.tail ≠ b.head) :
    size (try_pop b).2 = size b - 1 := by
  rw [try_pop_nonempty h hne]
  show relPos b.capacity ((b.tail + 1) % b.capacity) b.head = size b - 1
  have hn0 : size b ≠ 0 := fun h0 => hne ((size_eq_zero_iff h).mp h0)
  have hh : b.head = ((b.tail + 1) % b.capacity + (size b - 1)) % b.capacity := by
    rw [Nat.mod_add_mod, show b.tail + 1 + (size b - 1) = b.tail + size b by omega]
    exact (head_eq_add_size h).symm
  conv_lhs => rw [hh]
  exact relPos_add _ _ _ (Nat.mod_lt _ h.cap_pos) (by have := size_lt_cap h; omega)

theorem pop_slots {b : RingBuffer T} (h : Inv b) (hne : b.tail ≠ b.head) :
    slots b = b.storage.getD b.tail none :: slots (try_pop b).2 := by
  have hn0 : size b ≠ 0 := fun h0 => hne ((size_eq_zero_iff h).mp h0)
  have hsz := pop_size h hne
  rw [try_pop_nonempty h hne] at hsz ⊢
  obtain ⟨n, hn⟩ : ∃ n, size b = n + 1 := ⟨size b - 1, by omega⟩
  unfold slots
  rw [hsz, hn, Nat.add_sub_cancel, List.range_succ_eq_map, List.map_cons, List.map_map]
  congr 1
  · rw [Nat.add_zero, Nat.mod_eq_of_lt h.tlt]
  · apply List.map_eq_map_iff.mpr
    intro k hk
    have hklt : k < n := List.mem_range.mp hk
    have hkC : k + 1 < b.capacity := by
      have := size_lt_cap h; omega
    show b.storage.getD ((b.tail + Nat.succ k) % b.capacity) none
        = (b.storage.set b.tail none).getD
            (((b.tail + 1) % b.capacity + k) % b.capacity) none
    rw [Nat.mod_add_mod, show b.tail + 1 + k = b.tail + (k + 1) by omega]
    have hne2 : b.tail ≠ (b.tail + (k + 1)) % b.capacity := by
      intro heq
      have := mod_cursor_inj b.capacity b.tail 0 (k + 1) h.tlt h.cap_pos hkC
        (by rw [Nat.add_zero, Nat.mod_eq_of_lt h.tlt, ← heq])
      omega
    rw [getD_set_ne b.storage none hne2]

theorem slots_nil_of_empty {b : RingBuffer T} (h : Inv b) (he : b.tail = b.head) :
    slots b = [] := by
  unfold slots
  rw [(size_eq_zero_iff h).mpr he]
  rfl

theorem stepOp_emplace_eq (tr : Trace T) (v : T) :
    stepOp tr (Op.emplace v) = stepOp tr (Op.push v) := rfl

theorem stepOp_pop_ip_eq (tr : Trace T) : stepOp tr Op.pop_ip = stepOp tr Op.pop := by
  unfold stepOp
  dsimp only
  rw [try_pop_ip_val, try_pop_ip_state]

theorem stepOp_consume_eq (tr : Trace T) : stepOp tr Op.consume = stepOp tr Op.pop := by
  unfold stepOp
  dsimp only
  rw [try_consume_eq_try_pop_ip, try_pop_ip_val, try_pop_ip_state]

theorem push_traceInv {tr : Trace T} (h : traceInv tr) (v : T) :
    traceInv (stepOp tr (Op.push v)) := by
  obtain ⟨hInv, hEq⟩ := h
  refine ⟨push_Inv hInv v, ?_⟩
  show (tr.pushed ++ if (try_push tr.buf v).1 then [v] else []).map some
      = tr.popped.map some ++ slots (try_push tr.buf v).2
  by_cases hf : size tr.buf = tr.buf.capacity - 1
  · rw [try_push_full hInv v hf]
    simpa using hEq
  · have hflag : (try_push tr.buf v).1 = true := by
      rw [try_push_not_full hInv v hf]
    rw [push_slots hInv v hf, hflag]
    simp only [if_true, List.map_append, hEq, List.append_assoc, List.map_cons,
      List.map_nil]

theorem pop_traceInv {tr : Trace T} (h : traceInv tr) :
    traceInv (stepOp tr Op.pop) := by
  obtain ⟨hInv, hEq⟩ := h
  refine ⟨pop_Inv hInv, ?_⟩
  show tr.pushed.map some
      = (tr.popped ++ (try_pop tr.buf).1.toList).map some ++ slots (try_pop tr.buf).2
  by_cases he : tr.buf.tail = tr.buf.head
  · rw [try_pop_empty he]
    simpa [slots_nil_of_empty hInv he] using hEq
  · have hslots := pop_slots hInv he
    have hmem : tr.buf.storage.getD tr.buf.tail none ∈ tr.pushed.map some := by
      rw [hEq, hslots]
      exact List.mem_append_right _ (List.mem_cons_self _ _)
    obtain ⟨v, _, hveq⟩ := List.mem_map.mp hmem
    have hval : (try_pop tr.buf).1 = some v := by
      rw [try_pop_nonempty hInv he]
      exact hveq.symm
    rw [hval, hEq, hslots, ← hveq]
    simp [List.map_append, List.append_assoc]

theorem stepOp_traceInv {tr : Trace T} (h : traceInv tr) (op : Op T) :
    traceInv (stepOp tr op) := by
  cases op with
  | push v => exact push_traceInv h v
  | emplace v => rw [stepOp_emplace_eq]; exact push_traceInv h v
  | pop => exact pop_traceInv h
  | pop_ip => rw [stepOp_pop_ip_eq]; exact pop_traceInv h
  | consume => rw [stepOp_consume_eq]; exact pop_traceInv h

theorem runOps_traceInv {tr : Trace T} (h : traceInv tr) (ops : List (Op T)) :
    traceInv (runOps tr ops) := by
  induction ops generalizing tr with
  | nil => exact h
  | cons op ops ih => exact ih (stepOp_traceInv h op)

theorem freshTrace_traceInv (m : Nat) (hm : 1 ≤ m) :
    traceInv (freshTrace T (2 ^ m)) := by
  have hC : 0 < 2 ^ m := Nat.pos_pow_of_pos m (by decide)
  have hInv : Inv (RingBuffer.new T (2 ^ m)) :=
    { pow := ⟨m, hm, rfl⟩, hlt := hC, tlt := hC,
      len := List.length_replicate _ _ }
  refine ⟨hInv, ?_⟩
  have hnil : slots (RingBuffer.new T (2 ^ m)) = [] :=
    slots_nil_of_empty hInv rfl
  simp [freshTrace, hnil]

/-- Every state reachable from a freshly constructed buffer through the
public API satisfies the run invariant. -/
theorem reachable_traceInv (m : Nat) (hm : 1 ≤ m) (ops : List (Op T)) :
    traceInv (runOps (freshTrace T (2 ^ m)) ops) :=
  runOps_traceInv (freshTrace_traceInv m hm) ops

theorem try_push_guard_true {b : RingBuffer T} (v : T)
    (hg : (b.head + 1) &&& (b.capacity - 1) = b.tail) :
    try_push b v = (false, b) := by
  unfold try_push
  dsimp only
  rw [if_pos hg]

theorem try_push_guard_false {b : RingBuffer T} (v : T)
    (hg : ¬((b.head + 1) &&& (b.capacity - 1) = b.tail)) :
    try_push b v = (true, { b with storage := b.storage.set b.head (some v),
                                   head := (b.head + 1) &&& (b.capacity - 1) }) := by
  unfold try_push
  dsimp only
  rw [if_neg hg]

theorem try_pop_nonempty_raw {b : RingBuffer T} (hne : b.tail ≠ b.head) :
    try_pop b = (b.storage.getD b.tail none,
      { b with storage := b.storage.set b.tail none,
               tail := (b.tail + 1) &&& (b.capacity - 1) }) := by
  unfold try_pop
  dsimp only
  rw [if_neg hne]

theorem try_consume_empty {b : RingBuffer T} (he : b.tail = b.head) :
    try_consume b = (false, none, b) := by
  unfold try_consume
  rw [if_pos he]

theorem try_pop_ip_empty {b : RingBuffer T} (he : b.tail = b.head) :
    try_pop_ip b = (false, none, b) := by
  unfold try_pop_ip
  rw [if_pos he]

/-- In any state satisfying the run invariant, a nonempty index condition
guarantees a constructed element under the read cursor. -/
theorem traceInv_tail_some {tr : Trace T} (h : traceInv tr)
    (hne : tr.buf.tail ≠ tr.buf.head) :
    ∃ v, tr.buf.storage.getD tr.buf.tail none = some v := by
  obtain ⟨hInv, hEq⟩ := h
  have hmem : tr.buf.storage.getD tr.buf.tail none ∈ tr.pushed.map some := by
    rw [hEq, pop_slots hInv hne]
    exact List.mem_append_right _ (List.mem_cons_self _ _)
  obtain ⟨v, _, hveq⟩ := List.mem_map.mp hmem
  exact ⟨v, hveq.symm⟩

/-- The destructor loop performs exactly `size` successful consumes when
given at least that much fuel. -/
theorem drain_count {b : RingBuffer T} (h : Inv b) (fuel : Nat)
    (hfuel : size b ≤ fuel) : (drain fuel b).1 = size b := by
  induction fuel generalizing b with
  | zero =>
    have h0 : size b = 0 := Nat.le_zero.mp hfuel
    rw [h0]
    rfl
  | succ fuel ih =>
    by_cases he : b.tail = b.head
    · have h0 : size b = 0 := (size_eq_zero_iff h).mpr he
      unfold drain
      dsimp only
      rw [try_consume_empty he]
      simp [h0]
    · have hs0 : size b ≠ 0 := fun h0 => he ((size_eq_zero_iff h).mp h0)
      have hflag : (try_consume b).1 = true := by
        rw [try_consume_eq_try_pop_ip, try_pop_ip_flag]
        simp [he]
      have hstate : (try_consume b).2.2 = (try_pop b).2 := by
        rw [try_consume_eq_try_pop_ip, try_pop_ip_state]
      have hsz := pop_size h he
      unfold drain
      dsimp only
      rw [hflag]
      simp only [if_true]
      rw [hstate, ih (pop_Inv h) (by omega)]
      omega

theorem drain_capacity (fuel : Nat) (b : RingBuffer T) :
    (drain fuel b).2.capacity = b.capacity := by
  induction fuel generalizing b with
  | zero => rfl
  | succ fuel ih =>
    unfold drain
    dsimp only
    by_cases hf : (try_consume b).1 = true
    · rw [hf]
      simp only [if_true]
      rw [ih]
      by_cases he : b.tail = b.head
      · rw [try_consume_empty he]
      · rw [try_consume_eq_try_pop_ip, try_pop_ip_state, try_pop_nonempty_raw he]
    · simp only [Bool.not_eq_true] at hf
      rw [hf]
      simp

/-- Stepping `pushAll` from a state with `tail = 0` and room for the whole
list: every push succeeds and `head` advances by one per element. -/
theorem pushAll_progress (m : Nat) (hm : 1 ≤ m) (vs : List T) :
    ∀ b : RingBuffer T, b.capacity = 2 ^ m → b.tail = 0 →
    b.head + vs.length ≤ 2 ^ m - 1 →
    (pushAll b vs).1 = List.replicate vs.length true
    ∧ (pushAll b vs).2.capacity = 2 ^ m
    ∧ (pushAll b vs).2.tail = 0
    ∧ (pushAll b vs).2.head = b.head + vs.length := by
  induction vs with
  | nil =>
    intro b hc ht _
    exact ⟨rfl, hc, ht, rfl⟩
  | cons v rest ih =>
    intro b hc ht hh
    have hC2 : 2 ≤ 2 ^ m := by
      calc 2 = 2 ^ 1 := rfl
        _ ≤ 2 ^ m := Nat.pow_le_pow_right (by decide) hm
    have hlen : (v :: rest).length = rest.length + 1 := rfl
    have hhead : b.head + 1 < 2 ^ m := by
      rw [hlen] at hh
      omega
    have hmask : (b.head + 1) &&& (b.capacity - 1) = b.head + 1 := by
      rw [hc, Nat.and_pow_two_sub_one_eq_mod]
      exact Nat.mod_eq_of_lt hhead
    have hguard : ¬((b.head + 1) &&& (b.capacity - 1) = b.tail) := by
      rw [hmask, ht]
      omega
    have hstep := try_push_guard_false v hguard
    have hroom : ((b.head + 1) &&& (b.capacity - 1)) + rest.length ≤ 2 ^ m - 1 := by
      rw [hmask]
      rw [hlen] at hh
      omega
    have hrec := ih { b with storage := b.storage.set b.head (some v),
                             head := (b.head + 1) &&& (b.capacity - 1) }
      hc ht hroom
    show (pushAll b (v :: rest)).1 = _ ∧ _
    unfold pushAll
    dsimp only
    rw [hstep]
    dsimp only
    refine ⟨?_, hrec.2.1, hrec.2.2.1, ?_⟩
    · rw [hrec.1, hlen, List.replicate_succ]
    · rw [hrec.2.2.2]
      dsimp only
      rw [hmask, hlen]
      omega

/-- A well-formed state never answers both `empty` and `full` from the
same head/tail snapshot. -/
theorem Inv.not_both_flags {b : RingBuffer T} (h : Inv b)
    (he : b.tail = b.head)
    (hf : (b.head + 1) &&& (b.capacity - 1) = b.tail) : False := by
  have hf' : (b.head + 1) % b.capacity = b.tail := by
    rw [← h.mask]
    exact hf
  have h0 := (size_eq_zero_iff h).mpr he
  have hc1 := (full_iff_size h).mp hf'
  have := h.cap_two
  omega

theorem ringBuffer_ext {a b : RingBuffer T} (hc : a.capacity = b.capacity)
    (hh : a.head = b.head) (ht : a.tail = b.tail) (hs : a.storage = b.storage) :
    a = b := by
  cases a
  cases b
  cases hc
  cases hh
  cases ht
  cases hs
  rfl

theorem destruct_empty {b : RingBuffer T} (he : b.tail = b.head) :
    destruct b = 0 := by
  unfold destruct
  cases hC : b.capacity with
  | zero => rfl
  | succ n =>
    unfold drain
    dsimp only
    rw [try_consume_empty he]
    simp

/-- Claim C1: for every sequence of producer/consumer calls on one buffer
(capacity a power of two greater than 1), executed sequentially, the k-th
successfully popped value equals the k-th successfully pushed value —
FIFO order, including after index wraparound.  (Proved without even
needing the `Capacity - 1` outstanding bound of the claim.) -/
theorem fifo_order (m : Nat) (hm : 1 ≤ m) (ops : List (Op T)) (k : Nat)
    (hk : k < (runOps (freshTrace T (2 ^ m)) ops).popped.length) :
    (runOps (freshTrace T (2 ^ m)) ops).popped.get? k
      = (runOps (freshTrace T (2 ^ m)) ops).pushed.get? k := by
  obtain ⟨_, hEq⟩ := reachable_traceInv m hm ops
  set tr := runOps (freshTrace T (2 ^ m)) ops with htr
  have h1 : (tr.pushed.map some).get? k = (tr.popped.map some).get? k := by
    rw [hEq]
    exact List.get?_append (by rw [List.length_map]; exact hk)
  rw [List.get?_map, List.get?_map] at h1
  exact (Option.map_injective (Option.some_injective T) h1).symm

theorem fifo_order_witness :
    1 ≤ 2
    ∧ 1 < (runOps (freshTrace Nat (2 ^ 2))
        [Op.push 10, Op.push 20, Op.pop, Op.push 30, Op.pop, Op.pop]).popped.length
    ∧ (runOps (freshTrace Nat (2 ^ 2))
        [Op.push 10, Op.push 20, Op.pop, Op.push 30, Op.pop, Op.pop]).popped.get? 1
      = (runOps (freshTrace Nat (2 ^ 2))
        [Op.push 10, Op.push 20, Op.pop, Op.push 30, Op.pop, Op.pop]).pushed.get? 1 :=
  ⟨by decide, by decide,
    fifo_order 2 (by decide)
      [Op.push 10, Op.push 20, Op.pop, Op.push 30, Op.pop, Op.pop] 1 (by decide)⟩

/-- Claim C2: for every capacity `C = 2 ^ m` (`m ≥ 1`), starting from a
freshly constructed buffer, the first `C - 1` consecutive `try_push`
calls all return `true`, and the `C`-th `try_push` returns `false` and
returns the buffer completely unchanged (same head, tail and slots). -/
theorem capacity_property (m : Nat) (hm : 1 ≤ m) (vs : List T)
    (hlen : vs.length = 2 ^ m - 1) (w : T) :
    (pushAll (RingBuffer.new T (2 ^ m)) vs).1 = List.replicate (2 ^ m - 1) true
    ∧ try_push (pushAll (RingBuffer.new T (2 ^ m)) vs).2 w
        = (false, (pushAll (RingBuffer.new T (2 ^ m)) vs).2) := by
  have hprog := pushAll_progress m hm vs (RingBuffer.new T (2 ^ m)) rfl rfl
    (by rw [hlen]; show 0 + (2 ^ m - 1) ≤ 2 ^ m - 1; omega)
  obtain ⟨hres, hcap, htail, hhead⟩ := hprog
  refine ⟨by rw [hres, hlen], ?_⟩
  apply try_push_guard_true
  rw [hcap, htail, hhead, hlen]
  show ((0 + (2 ^ m - 1)) + 1) &&& (2 ^ m - 1) = 0
  have hC1 : 1 ≤ 2 ^ m := Nat.pos_pow_of_pos m (by decide)
  rw [show (0 + (2 ^ m - 1)) + 1 = 2 ^ m by omega]
  rw [Nat.and_pow_two_sub_one_eq_mod]
  exact Nat.mod_self _

theorem capacity_property_witness :
    1 ≤ 2 ∧ ([5, 6, 7] : List Nat).length = 2 ^ 2 - 1
    ∧ ((pushAll (RingBuffer.new Nat (2 ^ 2)) [5, 6, 7]).1
        = List.replicate (2 ^ 2 - 1) true
      ∧ try_push (pushAll (RingBuffer.new Nat (2 ^ 2)) [5, 6, 7]).2 8
          = (false, (pushAll (RingBuffer.new Nat (2 ^ 2)) [5, 6, 7]).2)) :=
  ⟨by decide, by decide, capacity_property 2 (by decide) [5, 6, 7] (by decide) 8⟩

/-- Claim C4: in every state reachable from a freshly constructed buffer,
`is_empty()` and `is_full()` never both report `true` on the same state. -/
theorem empty_full_exclusive (m : Nat) (hm : 1 ≤ m) (ops : List (Op T))
    (b : RingBuffer T) (hb : b = (runOps (freshTrace T (2 ^ m)) ops).buf) :
    ¬(is_empty b = true ∧ is_full b = true) := by
  have hInv : Inv b := hb ▸ (reachable_traceInv m hm ops).1
  rintro ⟨hemp, hful⟩
  have he : b.tail = b.head := by simpa [is_empty] using hemp
  have hf : (b.head + 1) % b.capacity = b.tail := by
    rw [← hInv.mask]
    simpa [is_full] using hful
  have h0 : size b = 0 := (size_eq_zero_iff hInv).mpr he
  have hc1 : size b = b.capacity - 1 := (full_iff_size hInv).mp hf
  have := hInv.cap_two
  omega

theorem empty_full_exclusive_witness :
    1 ≤ 2
    ∧ ¬(is_empty (runOps (freshTrace Nat (2 ^ 2)) [Op.push 1]).buf = true
        ∧ is_full (runOps (freshTrace Nat (2 ^ 2)) [Op.push 1]).buf = true) :=
  ⟨by decide, empty_full_exclusive 2 (by decide) [Op.push 1] _ rfl⟩

/-- Claim C10: after every sequence of operations starting from a freshly
constructed buffer, both cursors stay below `Capacity` (every update is
masked with `Capacity - 1`), so every slot index the operations compute
is inside the storage array. -/
theorem cursor_bounds (m : Nat) (hm : 1 ≤ m) (ops : List (Op T))
    (b : RingBuffer T) (hb : b = (runOps (freshTrace T (2 ^ m)) ops).buf) :
    b.head < b.capacity ∧ b.tail < b.capacity
    ∧ b.head < b.storage.length ∧ b.tail < b.storage.length := by
  subst hb
  obtain ⟨hInv, _⟩ := reachable_traceInv m hm ops
  exact ⟨hInv.hlt, hInv.tlt, hInv.len ▸ hInv.hlt, hInv.len ▸ hInv.tlt⟩

theorem cursor_bounds_witness :
    1 ≤ 2
    ∧ (let b := (runOps (freshTrace Nat (2 ^ 2))
          [Op.push 1, Op.push 2, Op.pop, Op.push 3, Op.push 4]).buf
      b.head < b.capacity ∧ b.tail < b.capacity
      ∧ b.head < b.storage.length ∧ b.tail < b.storage.length) :=
  ⟨by decide,
    cursor_bounds 2 (by decide) [Op.push 1, Op.push 2, Op.pop, Op.push 3, Op.push 4]
      _ rfl⟩

/-- Claim C3: every operation is total; `try_push`/`emplace` return
`false` exactly when `(head + 1) mod Capacity = tail` and then change
nothing, and the three consumer operations fail exactly when
`tail = head` and then change nothing.  Failure is reported only through
the boolean/optional return value (the embedded operations are total
functions with no other outcome). -/
theorem failure_conditions (m : Nat) (hm : 1 ≤ m) (ops : List (Op T))
    (b : RingBuffer T) (hb : b = (runOps (freshTrace T (2 ^ m)) ops).buf)
    (v : T) :
    ((try_push b v).1 = false ↔ (b.head + 1) % b.capacity = b.tail)
    ∧ ((try_push b v).1 = false → (try_push b v).2 = b)
    ∧ ((emplace b v).1 = false ↔ (b.head + 1) % b.capacity = b.tail)
    ∧ ((emplace b v).1 = false → (emplace b v).2 = b)
    ∧ ((try_pop b).1 = none ↔ b.tail = b.head)
    ∧ ((try_pop b).1 = none → (try_pop b).2 = b)
    ∧ ((try_pop_ip b).1 = false ↔ b.tail = b.head)
    ∧ ((try_pop_ip b).1 = false → (try_pop_ip b).2 = (none, b))
    ∧ ((try_consume b).1 = false ↔ b.tail = b.head)
    ∧ ((try_consume b).1 = false → (try_consume b).2 = (none, b)) := by
  subst hb
  have htrace := reachable_traceInv (T := T) m hm ops
  have hInv := htrace.1
  set b := (runOps (freshTrace T (2 ^ m)) ops).buf with hbdef
  have hpush1 : (try_push b v).1 = false ↔ (b.head + 1) % b.capacity = b.tail := by
    constructor
    · intro hfalse
      by_contra hg
      rw [try_push_guard_false v (by rw [hInv.mask]; exact hg)] at hfalse
      simp at hfalse
    · intro hg
      rw [try_push_guard_true v (by rw [hInv.mask]; exact hg)]
  have hpush2 : (try_push b v).1 = false → (try_push b v).2 = b := by
    intro hfalse
    rw [try_push_guard_true v (by rw [hInv.mask]; exact hpush1.mp hfalse)]
  have hpop1 : (try_pop b).1 = none ↔ b.tail = b.head := by
    constructor
    · intro hnone
      by_contra hne
      obtain ⟨w, hw⟩ := traceInv_tail_some htrace hne
      rw [try_pop_nonempty hInv hne] at hnone
      dsimp only at hnone
      rw [hw] at hnone
      exact Option.some_ne_none w hnone
    · intro he
      rw [try_pop_empty he]
  have hpop2 : (try_pop b).1 = none → (try_pop b).2 = b := by
    intro hnone
    rw [try_pop_empty (hpop1.mp hnone)]
  have hip1 : (try_pop_ip b).1 = false ↔ b.tail = b.head := by
    rw [try_pop_ip_flag]
    simp
  have hip2 : (try_pop_ip b).1 = false → (try_pop_ip b).2 = (none, b) := by
    intro hfalse
    rw [try_pop_ip_empty (hip1.mp hfalse)]
  refine ⟨hpush1, hpush2, hpush1, hpush2, hpop1, hpop2, hip1, hip2, ?_, ?_⟩
  · rw [try_consume_eq_try_pop_ip]
    exact hip1
  · rw [try_consume_eq_try_pop_ip]
    exact hip2

theorem failure_conditions_witness :
    1 ≤ 2
    ∧ ((try_push (runOps (freshTrace Nat (2 ^ 2)) [Op.push 1]).buf 9).1 = false
        ↔ ((runOps (freshTrace Nat (2 ^ 2)) [Op.push 1]).buf.head + 1)
            % (runOps (freshTrace Nat (2 ^ 2)) [Op.push 1]).buf.capacity
          = (runOps (freshTrace Nat (2 ^ 2)) [Op.push 1]).buf.tail) :=
  ⟨by decide, (failure_conditions 2 (by decide) [Op.push 1] _ rfl 9).1⟩

/-- Claim C5: the combined state query `get_state` (modelled from the
spec; the header does not define it) returns both flags computed from a
single head/tail snapshot — the same formulas as `is_empty`/`is_full` —
and on every reachable state it never reports both flags true. -/
theorem get_state_combined (m : Nat) (hm : 1 ≤ m) (ops : List (Op T))
    (b : RingBuffer T) (hb : b = (runOps (freshTrace T (2 ^ m)) ops).buf) :
    get_state b = { empty := is_empty b, full := is_full b }
    ∧ ¬((get_state b).empty = true ∧ (get_state b).full = true) := by
  have hInv : Inv b := hb ▸ (reachable_traceInv m hm ops).1
  refine ⟨rfl, ?_⟩
  rintro ⟨hemp, hful⟩
  have he : b.tail = b.head := by simpa [get_state] using hemp
  have hf : (b.head + 1) &&& (b.capacity - 1) = b.tail := by
    simpa [get_state] using hful
  exact hInv.not_both_flags he hf

theorem get_state_combined_witness :
    1 ≤ 2
    ∧ get_state (runOps (freshTrace Nat (2 ^ 2)) [Op.push 3, Op.pop]).buf
      = { empty := is_empty (runOps (freshTrace Nat (2 ^ 2)) [Op.push 3, Op.pop]).buf,
          full := is_full (runOps (freshTrace Nat (2 ^ 2)) [Op.push 3, Op.pop]).buf } :=
  ⟨by decide, (get_state_combined 2 (by decide) [Op.push 3, Op.pop] _ rfl).1⟩

/-- Claim C7: destroying a buffer that still holds `N` unread elements
invokes the element destructor exactly `N` times — one successful
`try_consume` per resident element, none skipped, none repeated. -/
theorem destructor_count (m : Nat) (hm : 1 ≤ m) (ops : List (Op T))
    (b : RingBuffer T) (hb : b = (runOps (freshTrace T (2 ^ m)) ops).buf) :
    destruct b = size b ∧ destruct b = (slots b).length := by
  have hInv : Inv b := hb ▸ (reachable_traceInv m hm ops).1
  have h1 : destruct b = size b :=
    drain_count hInv b.capacity (le_of_lt (size_lt_cap hInv))
  refine ⟨h1, ?_⟩
  rw [h1]
  unfold slots
  rw [List.length_map, List.length_range]

theorem destructor_count_witness :
    1 ≤ 2
    ∧ destruct (runOps (freshTrace Nat (2 ^ 2)) [Op.push 1, Op.push 2]).buf
      = size (runOps (freshTrace Nat (2 ^ 2)) [Op.push 1, Op.push 2]).buf :=
  ⟨by decide, (destructor_count 2 (by decide) [Op.push 1, Op.push 2] _ rfl).1⟩

/-- Claim C8: the three consumer operations are equivalent on every
reachable state: they succeed together (`try_pop` returns an engaged
optional exactly when the other two return `true`), deliver the same
front element, and leave the buffer in the same state; `try_consume` and
`try_pop_ip` are literally the same transformer. -/
theorem consumer_ops_equivalent (m : Nat) (hm : 1 ≤ m) (ops : List (Op T))
    (b : RingBuffer T) (hb : b = (runOps (freshTrace T (2 ^ m)) ops).buf) :
    (try_pop_ip b).1 = (try_pop b).1.isSome
    ∧ (try_pop_ip b).2.1 = (try_pop b).1
    ∧ (try_pop_ip b).2.2 = (try_pop b).2
    ∧ try_consume b = try_pop_ip b := by
  subst hb
  have htrace := reachable_traceInv (T := T) m hm ops
  refine ⟨?_, try_pop_ip_val _, try_pop_ip_state _, try_consume_eq_try_pop_ip _⟩
  set b := (runOps (freshTrace T (2 ^ m)) ops).buf with hbdef
  by_cases he : b.tail = b.head
  · rw [try_pop_ip_empty he, try_pop_empty he]
    rfl
  · obtain ⟨w, hw⟩ := traceInv_tail_some htrace he
    rw [try_pop_ip_flag, try_pop_nonempty htrace.1 he]
    dsimp only
    rw [hw]
    simp [he]

theorem consumer_ops_equivalent_witness :
    1 ≤ 2
    ∧ (try_pop_ip (runOps (freshTrace Nat (2 ^ 2)) [Op.push 6]).buf).1
      = (try_pop (runOps (freshTrace Nat (2 ^ 2)) [Op.push 6]).buf).1.isSome :=
  ⟨by decide, (consumer_ops_equivalent 2 (by decide) [Op.push 6] _ rfl).1⟩

/-- Claim C9: frame conditions.  `try_push`/`emplace` never touch `tail`
nor any occupied slot of the circular range `[tail, head)`; the consumer
operations never touch `head` nor any slot other than the one at `tail`. -/
theorem op_frames (b : RingBuffer T) (v : T) :
    (try_push b v).2.tail = b.tail
    ∧ (∀ i, relPos b.capacity b.tail i < size b →
        (try_push b v).2.storage.getD i none = b.storage.getD i none)
    ∧ emplace b v = try_push b v
    ∧ (try_pop b).2.head = b.head
    ∧ (∀ i, i ≠ b.tail → (try_pop b).2.storage.getD i none = b.storage.getD i none)
    ∧ (try_pop_ip b).2.2 = (try_pop b).2
    ∧ (try_consume b).2.2 = (try_pop b).2 := by
  refine ⟨?_, ?_, rfl, ?_, ?_, try_pop_ip_state b, ?_⟩
  · by_cases hg : (b.head + 1) &&& (b.capacity - 1) = b.tail
    · rw [try_push_guard_true v hg]
    · rw [try_push_guard_false v hg]
  · intro i hi
    by_cases hg : (b.head + 1) &&& (b.capacity - 1) = b.tail
    · rw [try_push_guard_true v hg]
    · rw [try_push_guard_false v hg]
      dsimp only
      apply getD_set_ne
      intro heq
      rw [← heq] at hi
      exact absurd hi (lt_irrefl (size b))
  · by_cases he : b.tail = b.head
    · rw [try_pop_empty he]
    · rw [try_pop_nonempty_raw he]
  · intro i hi
    by_cases he : b.tail = b.head
    · rw [try_pop_empty he]
    · rw [try_pop_nonempty_raw he]
      dsimp only
      exact getD_set_ne _ _ (Ne.symm hi)
  · rw [try_consume_eq_try_pop_ip]
    exact try_pop_ip_state b

theorem op_frames_witness :
    relPos (pushAll (RingBuffer.new Nat 4) [5]).2.capacity
        (pushAll (RingBuffer.new Nat 4) [5]).2.tail 0
      < size (pushAll (RingBuffer.new Nat 4) [5]).2
    ∧ (try_push (pushAll (RingBuffer.new Nat 4) [5]).2 9).2.storage.getD 0 none
      = (pushAll (RingBuffer.new Nat 4) [5]).2.storage.getD 0 none :=
  ⟨by decide, (op_frames (pushAll (RingBuffer.new Nat 4) [5]).2 9).2.1 0 (by decide)⟩

/-- Claim C6 counterexample: the claim "every subsequent operation on A
behaves exactly as it would on a freshly constructed buffer" is false for
the moved-from source.  With a fresh capacity-4 buffer, pushing 7 and
popping yields `some 7`; on the moved-from source of a move construction
the same push/pop yields nothing, because the source's storage was
relinquished (in the C++ the moved-from `unique_ptr` is null and the push
writes through it). -/
theorem move_source_not_fresh_cex :
    (try_pop (try_push (RingBuffer.new Nat 4) 7).2).1 = some 7
    ∧ (try_pop (try_push (moveConstruct (RingBuffer.new Nat 4)).2 7).2).1 = none
    ∧ (moveConstruct (RingBuffer.new Nat 4)).2 ≠ RingBuffer.new Nat 4 := by
  decide

/-- Claim C6 (amended): move construction and move assignment transfer
the complete state — cursors and all resident elements, in order — to
the destination, and reset the source to `head = tail = 0` with its
storage released.  The source remains valid for destruction, state
queries and pop attempts (all behave as on a fresh buffer), but a value
pushed into the moved-from source is lost (its storage is gone), so
pushes do not behave as on a freshly constructed buffer. -/
theorem move_semantics (b dst : RingBuffer T) (hInv : Inv b)
    (hcap : dst.capacity = b.capacity) :
    (moveConstruct b).1 = b
    ∧ (moveAssign dst b).1 = b
    ∧ (moveAssign dst b).2 = (moveConstruct b).2
    ∧ (moveConstruct b).2.head = 0 ∧ (moveConstruct b).2.tail = 0
    ∧ (moveConstruct b).2.storage = []
    ∧ is_empty (moveConstruct b).2 = true
    ∧ try_pop (moveConstruct b).2 = (none, (moveConstruct b).2)
    ∧ try_pop_ip (moveConstruct b).2 = (false, none, (moveConstruct b).2)
    ∧ try_consume (moveConstruct b).2 = (false, none, (moveConstruct b).2)
    ∧ destruct (moveConstruct b).2 = 0
    ∧ (∀ v, (try_pop (try_push (moveConstruct b).2 v).2).1 = none) := by
  have hC2 := hInv.cap_two
  refine ⟨rfl, ?_, rfl, rfl, rfl, rfl, rfl,
    try_pop_empty rfl, try_pop_ip_empty rfl, try_consume_empty rfl,
    destruct_empty rfl, ?_⟩
  · apply ringBuffer_ext
    · show (drain dst.capacity dst).2.capacity = b.capacity
      rw [drain_capacity]
      exact hcap
    · rfl
    · rfl
    · rfl
  · intro v
    have h1 : (0 + 1) &&& (b.capacity - 1) = 1 := by
      rw [hInv.mask]
      exact Nat.mod_eq_of_lt (by omega)
    show (try_pop (try_push ⟨b.capacity, 0, 0, []⟩ v).2).1 = none
    rw [try_push_guard_false v (by show ¬((0 + 1) &&& (b.capacity - 1) = 0)
                                   rw [h1]
                                   omega)]
    dsimp only
    rw [try_pop_nonempty_raw (by show (0 : Nat) ≠ (0 + 1) &&& (b.capacity - 1)
                                 rw [h1]
                                 omega)]
    rfl

theorem move_semantics_witness :
    Inv (pushAll (RingBuffer.new Nat 4) [1, 2]).2
    ∧ (RingBuffer.new Nat 4).capacity = (pushAll (RingBuffer.new Nat 4) [1, 2]).2.capacity
    ∧ (moveConstruct (pushAll (RingBuffer.new Nat 4) [1, 2]).2).1
      = (pushAll (RingBuffer.new Nat 4) [1, 2]).2 :=
  ⟨⟨⟨2, by decide, by decide⟩, by decide, by decide, by decide⟩, by decide,
    (move_semantics (pushAll (RingBuffer.new Nat 4) [1, 2]).2 (RingBuffer.new Nat 4)
      ⟨⟨2, by decide, by decide⟩, by decide, by decide, by decide⟩ (by decide)).1⟩

end Bring
